import Mathlib

/-!
Shallow embedding of the sfx-batch repository (src/sfx_batch/utils.py and
src/sfx_batch/main.py) and proofs about the frozen claims.

Strings are modelled as Lean `String` / `List Char`; Python floats are
modelled as `ℚ` (all numeric literals and comparisons relevant to the
claims are exact decimals); the filesystem is an abstract membership
predicate `String → Bool`; logging is modelled as Boolean warning flags
where a claim mentions warnings.  Python character classes are modelled on
the basic-latin range (`Char.isAlphanum` etc.); the characters the claims
mention are all in that range.
-/

namespace SfxBatch

/-! ## Embedding of src/sfx_batch/utils.py -/

/-- Characters replaced by an underscore in `sanitize_filename`
(the regex `[\\/:*?"<>|]` at utils.py line 22). -/
def isProblemChar (c : Char) : Bool :=
  c = '\\' || c = '/' || c = ':' || c = '*' || c = '?' || c = '"' || c = '<' || c = '>' || c = '|'

/-- Characters kept by the regex `[^\w._]` removal at utils.py line 26:
word characters (alphanumeric or underscore) and the period. -/
def isWordOrDot (c : Char) : Bool :=
  c.isAlphanum || c = '_' || c = '.'

/-- Characters removed at the ends by `strip('_.-')` (utils.py lines 32 and 46). -/
def isStripSet (c : Char) : Bool :=
  c = '_' || c = '.' || c = '-'

/-- Model of Python `str.strip(chars)`: drop the longest run of characters
satisfying `p` from both ends of the list. -/
def trimBoth (p : Char → Bool) (l : List Char) : List Char :=
  ((l.dropWhile p).reverse.dropWhile p).reverse

/-- Worker for `collapseRuns`: `prevU` records whether the previous kept
character was an underscore, so that further underscores of the same run
are dropped. -/
def collapseRunsAux (prevU : Bool) : List Char → List Char
  | [] => []
  | c :: rest =>
    if c = '_' then
      if prevU then collapseRunsAux true rest
      else '_' :: collapseRunsAux true rest
    else c :: collapseRunsAux false rest

/-- Model of the regex substitution turning runs of two or more underscores
into a single underscore (utils.py line 35).  A run of underscores of any
positive length becomes a single underscore. -/
def collapseRuns (l : List Char) : List Char := collapseRunsAux false l

/-- Model of the Python slice `l[a:b]` on a list of characters: negative
indices count from the end, and both bounds are clamped to the list. -/
def listPySlice (l : List Char) (a b : ℤ) : List Char :=
  let n : ℤ := l.length
  let lo : ℤ := if a < 0 then max (n + a) 0 else min a n
  let hi : ℤ := if b < 0 then max (n + b) 0 else min b n
  (l.take hi.toNat).drop lo.toNat

/-- Model of Python `s.rsplit('_', 1)[0]`: everything before the last
underscore, or the whole list when it has no underscore. -/
def beforeLastUnderscore (l : List Char) : List Char :=
  if l.contains '_' then
    (((l.reverse).dropWhile (fun c => c ≠ '_')).drop 1).reverse
  else l

/-- Character pipeline of utils.py lines 19-29: replace spaces with
underscores, replace the problem characters with underscores, drop every
character that is not a word character or a period, lowercase. -/
def cleanedChars (l : List Char) : List Char :=
  (((l.map (fun c => if c = ' ' then '_' else c)).map
      (fun c => if isProblemChar c then '_' else c)).filter isWordOrDot).map Char.toLower

/-- Stem after utils.py lines 31-39: trim `_.-` from both ends, collapse
underscore runs, and substitute `generated_sfx` when the result is empty. -/
def baseStem (l : List Char) : List Char :=
  if (collapseRuns (trimBoth isStripSet (cleanedChars l))).isEmpty then "generated_sfx".data
  else collapseRuns (trimBoth isStripSet (cleanedChars l))

/-- Truncation step of utils.py lines 42-46: cut to `max_length`, cut back
to the last underscore when the slice `[max_length-10 : max_length]` of the
truncated string contains one, and trim `_.-` again. -/
def truncStem (l6 : List Char) (max_length : ℤ) : List Char :=
  if (l6.length : ℤ) > max_length then
    trimBoth isStripSet
      (if (listPySlice (listPySlice l6 0 max_length) (max_length - 10) max_length).contains '_'
       then beforeLastUnderscore (listPySlice l6 0 max_length)
       else listPySlice l6 0 max_length)
  else l6

/-- Model of `sanitize_filename` (utils.py lines 8-51).  The second
argument is the `max_length` parameter, whose default in the source
is `150`; Python `int` is modelled as `ℤ`. -/
def sanitize_filename (prompt_text : String) (max_length : ℤ) : String :=
  if prompt_text.data.isEmpty then "unnamed_sfx" else
  let l7 := truncStem (baseStem prompt_text.data) max_length
  if l7.isEmpty then "generated_sfx_truncated" else String.mk l7

/-- Decimal digit character for a value below ten. -/
def digitChar (n : Nat) : Char := Char.ofNat (48 + n)

/-- Fuel-indexed worker for `natDigits`; the fuel only serves structural
recursion and any fuel above the value itself yields the digit list. -/
def natDigitsAux : Nat → Nat → List Char
  | 0, _ => []
  | fuel + 1, n =>
    if n < 10 then [digitChar n]
    else natDigitsAux fuel (n / 10) ++ [digitChar (n % 10)]

/-- Decimal digit list of a natural number, most significant digit first;
this models the decimal rendering of the collision counter in the
f-string at utils.py line 65. -/
def natDigits (n : Nat) : List Char := natDigitsAux (n + 1) n

/-- Decimal rendering of a natural number as a string. -/
def natDec (n : Nat) : String := String.mk (natDigits n)

/-- Model of `output_dir / output_filename`: joining a directory and a file
name with a path separator. -/
def mkPath (dir name : String) : String := dir ++ "/" ++ name

/-- The fallback path produced after more than 1000 collisions
(utils.py line 72); `hex8` stands for `uuid.uuid4().hex[:8]`, which is
nondeterministic in the source and is therefore a parameter here. -/
def fallbackPath (dir stem ext hex8 : String) : String :=
  mkPath dir (stem ++ "_" ++ hex8 ++ ext)

/-- Candidate path number `k` tried by `get_unique_filepath`:
`dir/stem.ext` for `k = 0` and `dir/stem_k.ext` for `k ≥ 1`. -/
def cand (dir stem ext : String) : Nat → String
  | 0 => mkPath dir (stem ++ ext)
  | k + 1 => mkPath dir (stem ++ "_" ++ natDec (k + 1) ++ ext)

/-- The `while output_file_path.exists()` loop of `get_unique_filepath`
(utils.py lines 63-74), with the filesystem abstracted as the membership
predicate `ex`.  `counter` and `path` are the Python loop variables; the
structural `fuel` argument is kept equal to `1001 - counter` by every
caller, and the `counter > 1000` break of the source fires before it can
reach zero, so the fuel-exhausted branch is unreachable. -/
def guLoop (ex : String → Bool) (dir stem ext hex8 : String) :
    Nat → Nat → String → String
  | 0, _, path => path
  | fuel + 1, counter, path =>
    if ex path then
      let path2 := mkPath dir (stem ++ "_" ++ natDec counter ++ ext)
      if counter + 1 > 1000 then fallbackPath dir stem ext hex8
      else guLoop ex dir stem ext hex8 fuel (counter + 1) path2
    else path

/-- Model of `get_unique_filepath` (utils.py lines 54-76): the loop starts
with counter `1` and initial candidate `dir/stem.ext`. -/
def get_unique_filepath (ex : String → Bool) (dir stem ext hex8 : String) : String :=
  guLoop ex dir stem ext hex8 1000 1 (mkPath dir (stem ++ ext))

/-! ## Embedding of src/sfx_batch/main.py -/

/-- Model of Python `str.strip()` with no argument: trim whitespace from
both ends. -/
def pyStripWS (s : String) : String := String.mk (trimBoth Char.isWhitespace s.data)

/-- Model of `text_prompt_raw.strip('"')` (main.py line 320): remove all
leading and all trailing double-quote characters. -/
def stripQuotes (s : String) : String := String.mk (trimBoth (fun c => c = '"') s.data)

/-- Value of a list of decimal digit characters, most significant first. -/
def digitsVal (l : List Char) : Nat :=
  l.foldl (fun a c => 10 * a + (c.toNat - 48)) 0

/-- Model of Python `float(s)` on the decimal forms `[+-]digits`,
`[+-]digits.digits`, `[+-].digits` and `[+-]digits.`; other inputs
(including the exponent, `inf` and `nan` forms, which no claim exercises)
are mapped to `none`, the model of `ValueError`. -/
def parseFloat (s : String) : Option ℚ :=
  let signed : ℚ × List Char :=
    match s.data with
    | '+' :: r => (1, r)
    | '-' :: r => (-1, r)
    | l => (1, l)
  let sgn := signed.1
  let body := signed.2
  let ip := body.takeWhile Char.isDigit
  let rest := body.dropWhile Char.isDigit
  match rest with
  | [] => if ip.isEmpty then none else some (sgn * digitsVal ip)
  | '.' :: frac =>
    if frac.all Char.isDigit && !(ip.isEmpty && frac.isEmpty) then
      some (sgn * ((digitsVal ip : ℚ) + (digitsVal frac : ℚ) / (10 : ℚ) ^ frac.length))
    else none
  | _ => none

/-- Model of the per-row numeric override blocks (main.py lines 326-347 for
duration and 349-370 for influence).  `colIdx = none` models the column
index `-1` (no column resolved).  The Boolean records whether a warning was
logged: `true` for a missing cell (`IndexError`), an unparsable value
(`ValueError`) and an out-of-range value; `false` when the cell is empty
after trimming or the parsed value is adopted. -/
def resolveOverride (row : List String) (colIdx : Option Nat) (lo hi dflt : ℚ) : ℚ × Bool :=
  match colIdx with
  | none => (dflt, false)
  | some j =>
    match row[j]? with
    | none => (dflt, true)
    | some cell =>
      let s := pyStripWS cell
      if s = "" then (dflt, false)
      else
        match parseFloat s with
        | none => (dflt, true)
        | some v => if lo ≤ v ∧ v ≤ hi then (v, false) else (dflt, true)

/-- Duration resolution for one row: range `[0.5, 22.0]` (main.py line 333). -/
def resolveDuration (row : List String) (colIdx : Option Nat) (glob : ℚ) : ℚ × Bool :=
  resolveOverride row colIdx (1/2) 22 glob

/-- Influence resolution for one row: range `[0.0, 1.0]` (main.py line 356). -/
def resolveInfluence (row : List String) (colIdx : Option Nat) (glob : ℚ) : ℚ × Bool :=
  resolveOverride row colIdx 0 1 glob

/-- One element of `prompts_data` (main.py lines 372-377). -/
structure WorkItem where
  text : String
  row_num : Nat
  duration : ℚ
  influence : ℚ
deriving DecidableEq

/-- Processing of one data row (main.py lines 312-383): skip empty rows,
skip rows whose prompt cell is missing (`IndexError`) or whose prompt is
empty after quote stripping, otherwise emit a `WorkItem` with the resolved
duration and influence. -/
def processRow (pIdx : Nat) (dIdx iIdx : Option Nat) (gd gi : ℚ) (row : List String)
    (rowNum : Nat) : Option WorkItem :=
  if row.isEmpty then none
  else
    match row[pIdx]? with
    | none => none
    | some raw =>
      let text := stripQuotes raw
      if text = "" then none
      else
        some { text := text
               row_num := rowNum
               duration := (resolveDuration row dIdx gd).1
               influence := (resolveInfluence row iIdx gi).1 }

/-- The row loop of main.py lines 312-383, carrying the 1-based row number
(the header is row 1, so the first data row is row 2). -/
def buildWorkItemsFrom (pIdx : Nat) (dIdx iIdx : Option Nat) (gd gi : ℚ) :
    Nat → List (List String) → List WorkItem
  | _, [] => []
  | rowNum, row :: rest =>
    match processRow pIdx dIdx iIdx gd gi row rowNum with
    | none => buildWorkItemsFrom pIdx dIdx iIdx gd gi (rowNum + 1) rest
    | some it => it :: buildWorkItemsFrom pIdx dIdx iIdx gd gi (rowNum + 1) rest

/-- All work items produced from the data rows, in input order. -/
def buildWorkItems (pIdx : Nat) (dIdx iIdx : Option Nat) (gd gi : ℚ)
    (dataRows : List (List String)) : List WorkItem :=
  buildWorkItemsFrom pIdx dIdx iIdx gd gi 2 dataRows

/-- Model of Python `str.isdigit()`: non-empty and all digits. -/
def pyIsDigit (s : String) : Bool := !s.data.isEmpty && s.data.all Char.isDigit

/-- Column-reference resolution against the header (main.py lines 249-310):
a purely numeric reference is a bounds-checked 0-based index (`int(ref)` is
`digitsVal` on a digit string), otherwise the reference is an exact
header-name lookup (`list.index`); `none` models failure. -/
def resolveColumn (header : List String) (ref : String) : Option Nat :=
  if pyIsDigit ref then
    let idx := digitsVal ref.data
    if idx < header.length then some idx else none
  else header.findIdx? (fun h => h = ref)

/-- Outcome of one `generate_sound_effect` call (main.py lines 413-417),
one constructor per exception category handled at lines 429-448. -/
inductive GenResult where
  | ok (audio : List Nat)
  | errApiKey
  | errRateLimit
  | errParam
  | errGen
  | errOther
deriving DecidableEq

/-- Handling of one work item (main.py lines 412-448): the item counts as
generated exactly when the collaborator returns bytes and the subsequent
file open and write succeed (`writeOk`); every exception category counts
the item as failed. -/
def handleItem (gen : WorkItem → GenResult) (writeOk : WorkItem → Bool) (it : WorkItem) : Bool :=
  match gen it with
  | GenResult.ok _ => writeOk it
  | _ => false

/-- The tally loop of main.py lines 400-448 starting from the running
counters `generated` and `failed`; returns the final pair. -/
def processFrom (gen : WorkItem → GenResult) (writeOk : WorkItem → Bool)
    (generated failed : Nat) : List WorkItem → Nat × Nat
  | [] => (generated, failed)
  | it :: rest =>
    if handleItem gen writeOk it then processFrom gen writeOk (generated + 1) failed rest
    else processFrom gen writeOk generated (failed + 1) rest

/-- Final `(generated_count, failed_count)` of the processing loop. -/
def processAll (gen : WorkItem → GenResult) (writeOk : WorkItem → Bool)
    (items : List WorkItem) : Nat × Nat :=
  processFrom gen writeOk 0 0 items

/-- Observable outcome of a run: the process exit code, the two tallies and
whether the `No valid prompts found` notice was emitted. -/
structure RunResult where
  exitCode : Nat
  generated : Nat
  failed : Nat
  noPromptsNotice : Bool
deriving DecidableEq

/-- Model of `main` from the CSV-reading stage on (main.py lines 237-453),
with setup (credentials, output directory, client construction) already
done.  `rows` is the full parsed row list of the file, header first; a
missing first row (`rows = []`, empty file) and a falsy header
(`header = []`, blank first line) exit with code 1 before any item is
processed; an unresolvable mandatory prompt column also exits with code 1;
zero work items exits with code 0 and the notice; otherwise the items are
processed and the run exits with code 0. -/
def runMain (rows : List (List String)) (promptCol : String)
    (durationCol influenceCol : Option String) (gd gi : ℚ)
    (gen : WorkItem → GenResult) (writeOk : WorkItem → Bool) : RunResult :=
  match rows with
  | [] => ⟨1, 0, 0, false⟩
  | header :: dataRows =>
    if header.isEmpty then ⟨1, 0, 0, false⟩
    else
      match resolveColumn header promptCol with
      | none => ⟨1, 0, 0, false⟩
      | some pIdx =>
        let dIdx := durationCol.bind (resolveColumn header)
        let iIdx := influenceCol.bind (resolveColumn header)
        let items := buildWorkItems pIdx dIdx iIdx gd gi dataRows
        if items.isEmpty then ⟨0, 0, 0, true⟩
        else
          let counts := processAll gen writeOk items
          ⟨0, counts.1, counts.2, false⟩

/-! ## Spec-side comparison definitions for the corrected claims -/

/-- Reading of claim C2: remove at most one leading and at most one
trailing double-quote character (a single surrounding pair). -/
def stripOneQuotePair (s : String) : String :=
  let l := s.data
  let l1 := if l.head? = some '"' then l.drop 1 else l
  let l2 := if l1.getLast? = some '"' then l1.dropLast else l1
  String.mk l2

/-- Last `n` elements of a list. -/
def lastN (n : Nat) (l : List Char) : List Char := l.drop (l.length - n)

/-- Reading of the truncation step in claim C5: the underscore check
examines exactly the last 10 characters of the truncated string. -/
def truncStemClaim (l6 : List Char) (max_length : ℤ) : List Char :=
  if (l6.length : ℤ) > max_length then
    trimBoth isStripSet
      (if (lastN 10 (listPySlice l6 0 max_length)).contains '_'
       then beforeLastUnderscore (listPySlice l6 0 max_length)
       else listPySlice l6 0 max_length)
  else l6

/-- Reading of claim C5: identical pipeline to `sanitize_filename`, except
that the truncation step is the claimed one. -/
def sanitizeClaimC5 (prompt_text : String) (max_length : ℤ) : String :=
  if prompt_text.data.isEmpty then "unnamed_sfx" else
  let l7 := truncStemClaim (baseStem prompt_text.data) max_length
  if l7.isEmpty then "generated_sfx_truncated" else String.mk l7

/-! ## General lemmas about the embedded operations -/

theorem processFrom_sum (gen : WorkItem → GenResult) (writeOk : WorkItem → Bool) :
    ∀ (items : List WorkItem) (g f : Nat),
      (processFrom gen writeOk g f items).1 + (processFrom gen writeOk g f items).2 =
        g + f + items.length := by
  intro items
  induction items with
  | nil => intro g f; simp [processFrom]
  | cons it rest ih =>
    intro g f
    by_cases h : handleItem gen writeOk it
    · simp only [processFrom, h, if_true]
      rw [ih]
      simp only [List.length_cons]
      omega
    · simp only [processFrom, h, if_false, Bool.false_eq_true]
      rw [ih]
      simp only [List.length_cons]
      omega

theorem resolveOverride_range (row : List String) (colIdx : Option Nat) (lo hi d : ℚ)
    (h1 : lo ≤ d) (h2 : d ≤ hi) :
    lo ≤ (resolveOverride row colIdx lo hi d).1 ∧ (resolveOverride row colIdx lo hi d).1 ≤ hi := by
  rcases colIdx with _ | j
  · simpa [resolveOverride] using ⟨h1, h2⟩
  · rcases hg : row[j]? with _ | cell
    · simpa [resolveOverride, hg] using ⟨h1, h2⟩
    · by_cases hs : pyStripWS cell = ""
      · simpa [resolveOverride, hg, hs] using ⟨h1, h2⟩
      · rcases hp : parseFloat (pyStripWS cell) with _ | v
        · simpa [resolveOverride, hg, hs, hp] using ⟨h1, h2⟩
        · by_cases hr : lo ≤ v ∧ v ≤ hi
          · simp only [resolveOverride, hg, hs, hp, hr, if_true, if_pos hr]
            exact hr
          · simpa [resolveOverride, hg, hs, hp, hr] using ⟨h1, h2⟩

theorem mem_buildWorkItemsFrom (pIdx : Nat) (dIdx iIdx : Option Nat) (gd gi : ℚ) :
    ∀ (rows : List (List String)) (rn : Nat) (it : WorkItem),
      it ∈ buildWorkItemsFrom pIdx dIdx iIdx gd gi rn rows →
      ∃ row k, processRow pIdx dIdx iIdx gd gi row (rn + k) = some it := by
  intro rows
  induction rows with
  | nil => intro rn it h; simp [buildWorkItemsFrom] at h
  | cons row rest ih =>
    intro rn it h
    cases hp : processRow pIdx dIdx iIdx gd gi row rn with
    | none =>
      simp only [buildWorkItemsFrom, hp] at h
      obtain ⟨row2, k, hk⟩ := ih (rn + 1) it h
      refine ⟨row2, k + 1, ?_⟩
      have harith : rn + (k + 1) = rn + 1 + k := by omega
      rw [harith]
      exact hk
    | some v =>
      simp only [buildWorkItemsFrom, hp] at h
      rcases List.mem_cons.mp h with h | h
      · exact ⟨row, 0, by rw [Nat.add_zero, h]; exact hp⟩
      · obtain ⟨row2, k, hk⟩ := ih (rn + 1) it h
        refine ⟨row2, k + 1, ?_⟩
        have harith : rn + (k + 1) = rn + 1 + k := by omega
        rw [harith]
        exact hk

theorem processRow_fields (pIdx : Nat) (dIdx iIdx : Option Nat) (gd gi : ℚ)
    (row : List String) (rn : Nat) (it : WorkItem)
    (h : processRow pIdx dIdx iIdx gd gi row rn = some it) :
    it.text ≠ "" ∧ it.row_num = rn ∧
    it.duration = (resolveDuration row dIdx gd).1 ∧
    it.influence = (resolveInfluence row iIdx gi).1 := by
  unfold processRow at h
  split at h
  · exact absurd h (by simp)
  · cases hg : row[pIdx]? with
    | none => rw [hg] at h; exact absurd h (by simp)
    | some raw =>
      rw [hg] at h
      simp only at h
      split at h
      · exact absurd h (by simp)
      · next hne =>
        rcases Option.some.inj h with rfl
        exact ⟨hne, rfl, rfl, rfl⟩

/-! ## Claim C1: per-row duration and influence override resolution -/

/-- C1: for every data row with a resolved duration column, the effective
duration starts from the global default; a cell that is non-empty after
trimming is parsed as a number and adopted only if it lies in `[0.5, 22.0]`;
a parse failure or out-of-range parse warns and keeps the global default; an
empty cell keeps the default without warning; a missing cell behaves like a
parse failure (warn, keep default) and still yields a work item rather than
a fatal error.  Influence resolution is the same function instantiated at
the range `[0.0, 1.0]`. -/
theorem c1_row_override_resolution (row : List String) (gd gi : ℚ) :
    (∀ colIdx, resolveDuration row colIdx gd = resolveOverride row colIdx (1/2) 22 gd) ∧
    (∀ colIdx, resolveInfluence row colIdx gi = resolveOverride row colIdx 0 1 gi) ∧
    (∀ lo hi d, resolveOverride row none lo hi d = (d, false)) ∧
    (∀ lo hi d j, row[j]? = none → resolveOverride row (some j) lo hi d = (d, true)) ∧
    (∀ lo hi d j cell, row[j]? = some cell → pyStripWS cell = "" →
      resolveOverride row (some j) lo hi d = (d, false)) ∧
    (∀ lo hi d j cell, row[j]? = some cell → pyStripWS cell ≠ "" →
      parseFloat (pyStripWS cell) = none →
      resolveOverride row (some j) lo hi d = (d, true)) ∧
    (∀ lo hi d j cell v, row[j]? = some cell → pyStripWS cell ≠ "" →
      parseFloat (pyStripWS cell) = some v → ¬(lo ≤ v ∧ v ≤ hi) →
      resolveOverride row (some j) lo hi d = (d, true)) ∧
    (∀ lo hi d j cell v, row[j]? = some cell → pyStripWS cell ≠ "" →
      parseFloat (pyStripWS cell) = some v → lo ≤ v → v ≤ hi →
      resolveOverride row (some j) lo hi d = (v, false)) ∧
    (∀ pIdx j iIdx raw, row.isEmpty = false → row[pIdx]? = some raw →
      stripQuotes raw ≠ "" → row[j]? = none →
      ∃ it, processRow pIdx (some j) iIdx gd gi row 2 = some it ∧ it.duration = gd) := by
  refine ⟨fun _ => rfl, fun _ => rfl, fun _ _ _ => rfl, ?_, ?_, ?_, ?_, ?_, ?_⟩
  · intro lo hi d j hj
    simp [resolveOverride, hj]
  · intro lo hi d j cell hj hs
    simp [resolveOverride, hj, hs]
  · intro lo hi d j cell hj hs hp
    simp [resolveOverride, hj, hs, hp]
  · intro lo hi d j cell v hj hs hp hrange
    simp [resolveOverride, hj, hs, hp, hrange]
  · intro lo hi d j cell v hj hs hp h1 h2
    simp [resolveOverride, hj, hs, hp, h1, h2]
  · intro pIdx j iIdx raw hrow hraw htext hj
    refine ⟨⟨stripQuotes raw, 2, (resolveDuration row (some j) gd).1,
      (resolveInfluence row iIdx gi).1⟩, ?_, ?_⟩
    · simp [processRow, hrow, hraw, htext]
    · simp [resolveDuration, resolveOverride, hj]

unseal Rat.mul Rat.add Rat.inv Rat.sub in
/-- Witness for C1 at concrete rows: an in-range duration cell is adopted,
an out-of-range one and a missing one keep the global default with a
warning, an empty influence cell keeps the global default silently. -/
theorem c1_witness :
    resolveOverride ["x", "2.5"] (some 1) (1/2) 22 5 = (5/2, false) ∧
    resolveOverride ["x", "0.1"] (some 1) (1/2) 22 5 = (5, true) ∧
    resolveOverride ["x"] (some 1) (1/2) 22 5 = (5, true) ∧
    resolveOverride ["x", ""] (some 1) 0 1 (3/10) = (3/10, false) := by
  refine ⟨?_, ?_, ?_, ?_⟩
  · exact (c1_row_override_resolution ["x", "2.5"] 5 (3/10)).2.2.2.2.2.2.2.1
      (1/2) 22 5 1 "2.5" (5/2) (by decide) (by decide) (by decide) (by decide) (by decide)
  · exact (c1_row_override_resolution ["x", "0.1"] 5 (3/10)).2.2.2.2.2.2.1
      (1/2) 22 5 1 "0.1" (1/10) (by decide) (by decide) (by decide) (by decide)
  · exact (c1_row_override_resolution ["x"] 5 (3/10)).2.2.2.1 (1/2) 22 5 1 (by decide)
  · exact (c1_row_override_resolution ["x", ""] 5 (3/10)).2.2.2.2.1 0 1 (3/10) 1 "" (by decide)
      (by decide)

/-! ## Claim C2: prompt extraction and quote stripping -/

/-- C2 (amended): for every row whose prompt cell is present, the prompt
text is obtained from the raw cell by stripping all leading and all
trailing double-quote characters, and the row is skipped exactly when the
stripped text is empty. -/
theorem c2_prompt_quote_stripping (pIdx : Nat) (dIdx iIdx : Option Nat) (gd gi : ℚ)
    (row : List String) (rowNum : Nat) (raw : String)
    (hrow : row.isEmpty = false) (hraw : row[pIdx]? = some raw) :
    (stripQuotes raw = "" → processRow pIdx dIdx iIdx gd gi row rowNum = none) ∧
    (stripQuotes raw ≠ "" →
      ∃ it, processRow pIdx dIdx iIdx gd gi row rowNum = some it ∧
        it.text = stripQuotes raw) := by
  constructor
  · intro he
    simp [processRow, hrow, hraw, he]
  · intro hne
    exact ⟨⟨stripQuotes raw, rowNum, (resolveDuration row dIdx gd).1,
      (resolveInfluence row iIdx gi).1⟩, by simp [processRow, hrow, hraw, hne], rfl⟩

unseal Rat.mul Rat.add Rat.inv Rat.sub in
/-- Counterexample to C2 as stated: on the raw cell made of four double
quotes the code strips all of them and skips the row, while removing a
single surrounding pair leaves the non-empty text `""`, under which the
claim says the row is not skipped. -/
theorem c2_counterexample :
    processRow 0 none none 5 (3/10) ["\"\"\"\""] 2 = none ∧
    stripOneQuotePair "\"\"\"\"" ≠ "" ∧
    stripQuotes "\"\"\"\"" ≠ stripOneQuotePair "\"\"\"\"" :=
  ⟨by decide, by decide, by decide⟩

unseal Rat.mul Rat.add Rat.inv Rat.sub in
/-- Witness for C2 at a concrete quoted prompt cell. -/
theorem c2_witness :
    ∃ it, processRow 0 none none 5 (3/10) ["\"hello\""] 2 = some it ∧
      it.text = stripQuotes "\"hello\"" :=
  (c2_prompt_quote_stripping 0 none none 5 (3/10) ["\"hello\""] 2 "\"hello\""
    (by decide) (by decide)).2 (by decide)

/-! ## Claim C8: per-item failures never abort the batch -/

/-- C8: every failure category from the generation collaborator, and any
other error while handling an item, counts the item as failed; the loop
then continues with the remaining items in order; and once processing is
reached the process exit code is 0 regardless of per-item outcomes. -/
theorem c8_failures_never_abort (gen : WorkItem → GenResult) (writeOk : WorkItem → Bool) :
    (∀ it, gen it = GenResult.errApiKey ∨ gen it = GenResult.errRateLimit ∨
        gen it = GenResult.errParam ∨ gen it = GenResult.errGen ∨
        gen it = GenResult.errOther →
      handleItem gen writeOk it = false) ∧
    (∀ g f it rest, handleItem gen writeOk it = false →
      processFrom gen writeOk g f (it :: rest) = processFrom gen writeOk g (f + 1) rest) ∧
    (∀ header dataRows promptCol dCol iCol gd gi pIdx,
      header.isEmpty = false → resolveColumn header promptCol = some pIdx →
      (runMain (header :: dataRows) promptCol dCol iCol gd gi gen writeOk).exitCode = 0) := by
  refine ⟨?_, ?_, ?_⟩
  · intro it h
    rcases h with h | h | h | h | h <;> simp [handleItem, h]
  · intro g f it rest h
    simp [processFrom, h]
  · intro header dataRows promptCol dCol iCol gd gi pIdx hheader hresolve
    simp only [runMain, hheader, hresolve, Bool.false_eq_true, if_false]
    split <;> rfl

/-- Witness for C8: a rate-limited item counts as failed, and the run with
such an item still exits with code 0. -/
theorem c8_witness :
    handleItem (fun _ => GenResult.errRateLimit) (fun _ => true) ⟨"a", 2, 5, 1⟩ = false ∧
    (runMain [["text"], ["a"]] "text" none none 5 1 (fun _ => GenResult.errRateLimit)
      (fun _ => true)).exitCode = 0 := by
  constructor
  · exact (c8_failures_never_abort (fun _ => GenResult.errRateLimit) (fun _ => true)).1
      ⟨"a", 2, 5, 1⟩ (Or.inr (Or.inl rfl))
  · exact (c8_failures_never_abort (fun _ => GenResult.errRateLimit) (fun _ => true)).2.2
      ["text"] [["a"]] "text" none none 5 1 0 (by decide) (by decide)

/-! ## Claim C9: header-only files versus missing or empty first line -/

/-- C9: a header-only input (zero data rows) yields zero work items, exit
code 0 and the no-prompts notice, while an empty file (no first row) and a
file whose first line is empty are fatal with exit code 1 and no item
processed. -/
theorem c9_header_only_and_fatal (promptCol : String) (dCol iCol : Option String) (gd gi : ℚ)
    (gen : WorkItem → GenResult) (writeOk : WorkItem → Bool) :
    runMain [] promptCol dCol iCol gd gi gen writeOk = ⟨1, 0, 0, false⟩ ∧
    (∀ rest, runMain ([] :: rest) promptCol dCol iCol gd gi gen writeOk = ⟨1, 0, 0, false⟩) ∧
    (∀ header pIdx, header.isEmpty = false → resolveColumn header promptCol = some pIdx →
      runMain [header] promptCol dCol iCol gd gi gen writeOk = ⟨0, 0, 0, true⟩) := by
  refine ⟨rfl, fun rest => rfl, ?_⟩
  intro header pIdx hh hr
  simp [runMain, hh, hr, buildWorkItems, buildWorkItemsFrom]

/-- Witness for C9 at a concrete header-only file. -/
theorem c9_witness :
    runMain [["text"]] "text" none none 5 1 (fun _ => GenResult.errOther) (fun _ => true) =
      ⟨0, 0, 0, true⟩ :=
  (c9_header_only_and_fatal "text" none none 5 1 (fun _ => GenResult.errOther)
    (fun _ => true)).2.2 ["text"] 0 (by decide) (by decide)

/-! ## Claim C10: the two tallies partition the work items -/

/-- C10: at the end of the processing loop the generated tally plus the
failed tally equals the number of work items; each item increments exactly
one of the two (the step equations), and an error while opening or writing
the output file counts the item as failed, because generated is
incremented only after the bytes are written. -/
theorem c10_tally_partition (gen : WorkItem → GenResult) (writeOk : WorkItem → Bool)
    (items : List WorkItem) :
    (processAll gen writeOk items).1 + (processAll gen writeOk items).2 = items.length ∧
    (∀ g f it rest, handleItem gen writeOk it = true →
      processFrom gen writeOk g f (it :: rest) = processFrom gen writeOk (g + 1) f rest) ∧
    (∀ g f it rest, handleItem gen writeOk it = false →
      processFrom gen writeOk g f (it :: rest) = processFrom gen writeOk g (f + 1) rest) ∧
    (∀ it bytes, gen it = GenResult.ok bytes → writeOk it = false →
      handleItem gen writeOk it = false) := by
  refine ⟨?_, ?_, ?_, ?_⟩
  · simpa [processAll] using processFrom_sum gen writeOk items 0 0
  · intro g f it rest h
    simp [processFrom, h]
  · intro g f it rest h
    simp [processFrom, h]
  · intro it bytes hg hw
    simp [handleItem, hg, hw]

/-- Witness for C10: a successful generation whose file write fails counts
as failed. -/
theorem c10_witness :
    handleItem (fun _ => GenResult.ok []) (fun _ => false) ⟨"a", 2, 5, 1⟩ = false :=
  (c10_tally_partition (fun _ => GenResult.ok []) (fun _ => false) []).2.2.2
    ⟨"a", 2, 5, 1⟩ [] rfl rfl

/-! ## Claim C7: work-item invariants -/

/-- C7: when the global duration lies in `[0.5, 22.0]` and the global
influence in `[0.0, 1.0]`, every work item emitted by the row resolver has
non-empty text, a 1-based source row number of at least 2 (the header is
row 1), a duration in `[0.5, 22.0]` and an influence in `[0.0, 1.0]`.  The
embedded resolver is a pure function into an immutable structure, so items
are not mutated after creation. -/
theorem c7_workitem_invariants (pIdx : Nat) (dIdx iIdx : Option Nat) (gd gi : ℚ)
    (rows : List (List String)) (it : WorkItem)
    (hgd1 : 1/2 ≤ gd) (hgd2 : gd ≤ 22) (hgi1 : 0 ≤ gi) (hgi2 : gi ≤ 1)
    (hmem : it ∈ buildWorkItems pIdx dIdx iIdx gd gi rows) :
    it.text ≠ "" ∧ 2 ≤ it.row_num ∧
    1/2 ≤ it.duration ∧ it.duration ≤ 22 ∧ 0 ≤ it.influence ∧ it.influence ≤ 1 := by
  obtain ⟨row, k, hk⟩ := mem_buildWorkItemsFrom pIdx dIdx iIdx gd gi rows 2 it hmem
  obtain ⟨ht, hrn, hd, hi⟩ := processRow_fields _ _ _ _ _ _ _ _ hk
  have hdr := resolveOverride_range row dIdx (1/2) 22 gd hgd1 hgd2
  have hir := resolveOverride_range row iIdx 0 1 gi hgi1 hgi2
  refine ⟨ht, by omega, ?_, ?_, ?_, ?_⟩
  · rw [hd]; exact hdr.1
  · rw [hd]; exact hdr.2
  · rw [hi]; exact hir.1
  · rw [hi]; exact hir.2

unseal Rat.mul Rat.add Rat.inv Rat.sub in
/-- Witness for C7 at a concrete one-row table. -/
theorem c7_witness :
    (⟨"a", 2, 5, 3/10⟩ : WorkItem).text ≠ "" ∧
    2 ≤ (⟨"a", 2, 5, 3/10⟩ : WorkItem).row_num ∧
    1/2 ≤ (⟨"a", 2, 5, 3/10⟩ : WorkItem).duration ∧
    (⟨"a", 2, 5, 3/10⟩ : WorkItem).duration ≤ 22 ∧
    0 ≤ (⟨"a", 2, 5, 3/10⟩ : WorkItem).influence ∧
    (⟨"a", 2, 5, 3/10⟩ : WorkItem).influence ≤ 1 :=
  c7_workitem_invariants 0 none none 5 (3/10) [["a"]] ⟨"a", 2, 5, 3/10⟩
    (by decide) (by decide) (by decide) (by decide) (by decide)

/-! ## Lemmas about the unique-path loop -/

theorem guLoop_finds (ex : String → Bool) (dir stem ext hex8 : String) :
    ∀ (n k : Nat), k + 1 + n ≤ 1000 →
      (∀ i, k ≤ i → i < k + n → ex (cand dir stem ext i) = true) →
      ex (cand dir stem ext (k + n)) = false →
      guLoop ex dir stem ext hex8 (1000 - k) (k + 1) (cand dir stem ext k) =
        cand dir stem ext (k + n) := by
  intro n
  induction n with
  | zero =>
    intro k hk hall hgap
    obtain ⟨f, hf⟩ : ∃ f, 1000 - k = f + 1 := ⟨999 - k, by omega⟩
    rw [Nat.add_zero] at hgap ⊢
    rw [hf]
    simp [guLoop, hgap]
  | succ n ih =>
    intro k hk hall hgap
    obtain ⟨f, hf⟩ : ∃ f, 1000 - k = f + 1 := ⟨999 - k, by omega⟩
    rw [hf]
    have hk1 : ex (cand dir stem ext k) = true := hall k (Nat.le_refl k) (by omega)
    have hc : ¬ (k + 1 + 1 > 1000) := by omega
    simp only [guLoop, hk1, if_true, hc, if_false]
    have hpath : mkPath dir (stem ++ "_" ++ natDec (k + 1) ++ ext) =
        cand dir stem ext (k + 1) := rfl
    have hf2 : f = 1000 - (k + 1) := by omega
    rw [hpath, hf2]
    have harith : k + (n + 1) = (k + 1) + n := by omega
    rw [harith] at hgap ⊢
    exact ih (k + 1) (by omega) (fun i h1 h2 => hall i (by omega) (by omega)) hgap

theorem guLoop_fallback (ex : String → Bool) (dir stem ext hex8 : String) :
    ∀ (n k : Nat), k + 1 + n = 1000 →
      (∀ i, i ≤ 999 → ex (cand dir stem ext i) = true) →
      guLoop ex dir stem ext hex8 (1000 - k) (k + 1) (cand dir stem ext k) =
        fallbackPath dir stem ext hex8 := by
  intro n
  induction n with
  | zero =>
    intro k hk hall
    have hk9 : k = 999 := by omega
    subst hk9
    have h999 : ex (cand dir stem ext 999) = true := hall 999 (by omega)
    show guLoop ex dir stem ext hex8 1 1000 (cand dir stem ext 999) = _
    simp [guLoop, h999]
  | succ n ih =>
    intro k hk hall
    obtain ⟨f, hf⟩ : ∃ f, 1000 - k = f + 1 := ⟨999 - k, by omega⟩
    rw [hf]
    have hk1 : ex (cand dir stem ext k) = true := hall k (by omega)
    have hc : ¬ (k + 1 + 1 > 1000) := by omega
    simp only [guLoop, hk1, if_true, hc, if_false]
    have hpath : mkPath dir (stem ++ "_" ++ natDec (k + 1) ++ ext) =
        cand dir stem ext (k + 1) := rfl
    have hf2 : f = 1000 - (k + 1) := by omega
    rw [hpath, hf2]
    exact ih (k + 1) (by omega) hall

/-! ## Claim C3: the unique-path resolver -/

/-- C3: `get_unique_filepath` returns `dir/stem.ext` when that path does
not exist; otherwise the first non-existing `dir/stem_k.ext` in increasing
counter order; and when the first 1000 candidates (`stem.ext` and
`stem_1.ext` … `stem_999.ext`) all exist it logs a warning and returns the
random fallback `dir/stem_<hex8>.ext` without checking its existence. -/
theorem c3_unique_filepath (ex : String → Bool) (dir stem ext hex8 : String) :
    (ex (cand dir stem ext 0) = false →
      get_unique_filepath ex dir stem ext hex8 = cand dir stem ext 0) ∧
    (∀ k, 1 ≤ k → k ≤ 999 →
      (∀ i, i < k → ex (cand dir stem ext i) = true) →
      ex (cand dir stem ext k) = false →
      get_unique_filepath ex dir stem ext hex8 = cand dir stem ext k) ∧
    ((∀ i, i ≤ 999 → ex (cand dir stem ext i) = true) →
      get_unique_filepath ex dir stem ext hex8 = fallbackPath dir stem ext hex8) := by
  refine ⟨?_, ?_, ?_⟩
  · intro h
    have hfind := guLoop_finds ex dir stem ext hex8 0 0 (by omega)
      (fun i _ h2 => absurd h2 (by omega)) (by simpa using h)
    simpa [get_unique_filepath] using hfind
  · intro k hk1 hk9 hall hgap
    have hfind := guLoop_finds ex dir stem ext hex8 k 0 (by omega)
      (fun i _ h2 => hall i (by omega)) (by simpa using hgap)
    simpa [get_unique_filepath] using hfind
  · intro hall
    have hfall := guLoop_fallback ex dir stem ext hex8 999 0 (by omega) hall
    simpa [get_unique_filepath] using hfall

/-- Witness for C3: with only `d/s.mp3` existing, the resolver returns
`d/s_1.mp3`. -/
theorem c3_witness :
    get_unique_filepath (fun p => p == "d/s.mp3") "d" "s" ".mp3" "abcd1234" =
      cand "d" "s" ".mp3" 1 :=
  (c3_unique_filepath (fun p => p == "d/s.mp3") "d" "s" ".mp3" "abcd1234").2.1 1
    (by omega) (by omega)
    (fun i hi => by
      have hi0 : i = 0 := by omega
      subst hi0
      decide)
    (by decide)

/-! ## Injectivity of the candidate paths -/

theorem digitChar_toNat (d : Nat) (hd : d < 10) : (digitChar d).toNat = 48 + d := by
  have key : ∀ e : Fin 10, (digitChar e.val).toNat = 48 + e.val := by decide
  exact key ⟨d, hd⟩

theorem digitsVal_append_single (l : List Char) (c : Char) :
    digitsVal (l ++ [c]) = 10 * digitsVal l + (c.toNat - 48) := by
  unfold digitsVal
  rw [List.foldl_append]
  rfl

theorem natDigitsAux_val : ∀ (fuel n : Nat), n < fuel →
    digitsVal (natDigitsAux fuel n) = n := by
  intro fuel
  induction fuel with
  | zero => intro n h; omega
  | succ f ih =>
    intro n h
    by_cases h10 : n < 10
    · simp only [natDigitsAux, h10, if_true]
      unfold digitsVal
      simp only [List.foldl_cons, List.foldl_nil]
      rw [show (digitChar n).toNat = 48 + n from digitChar_toNat n h10]
      omega
    · simp only [natDigitsAux, h10, if_false]
      rw [digitsVal_append_single]
      have hdiv : n / 10 < f := by omega
      rw [ih (n / 10) hdiv]
      rw [digitChar_toNat (n % 10) (by omega)]
      omega

theorem natDigits_val (n : Nat) : digitsVal (natDigits n) = n :=
  natDigitsAux_val (n + 1) n (by omega)

theorem natDec_inj {a b : Nat} (h : natDec a = natDec b) : a = b := by
  have hdata : natDigits a = natDigits b := congrArg String.data h
  have hval := congrArg digitsVal hdata
  rwa [natDigits_val, natDigits_val] at hval

theorem natDigits_ne_nil (n : Nat) : natDigits n ≠ [] := by
  unfold natDigits natDigitsAux
  by_cases h : n < 10 <;> simp [h]

theorem cand_inj (dir stem ext : String) : ∀ {i j : Nat},
    cand dir stem ext i = cand dir stem ext j → i = j := by
  have hpos : ∀ m : Nat, 0 < (natDec m).data.length := by
    intro m
    cases hq : natDigits m with
    | nil => exact absurd hq (natDigits_ne_nil m)
    | cons a l => simp [natDec, hq]
  intro i j h
  have hd := congrArg String.data h
  match i, j with
  | 0, 0 => rfl
  | 0, j + 1 =>
    exfalso
    simp only [cand, mkPath, String.data_append, List.append_assoc] at hd
    have hlen := congrArg List.length hd
    simp only [List.length_append] at hlen
    have := hpos (j + 1)
    omega
  | i + 1, 0 =>
    exfalso
    simp only [cand, mkPath, String.data_append, List.append_assoc] at hd
    have hlen := congrArg List.length hd
    simp only [List.length_append] at hlen
    have := hpos (i + 1)
    omega
  | i + 1, j + 1 =>
    simp only [cand, mkPath, String.data_append, List.append_assoc] at hd
    have h1 := List.append_cancel_left hd
    have h2 := List.append_cancel_left h1
    have h3 := List.append_cancel_left h2
    have h4 := List.append_cancel_left h3
    have h5 := List.append_cancel_right h4
    have h6 : natDec (i + 1) = natDec (j + 1) := congrArg String.mk h5
    exact natDec_inj h6

/-! ## Claim C6: repeated calls with file creation in between -/

/-- Filesystem state after `n` calls to the resolver with the same
arguments, where each returned path is created on disk before the next
call (as the batch driver does) and no file is deleted. -/
def fsAfter (fs0 : String → Bool) (dir stem ext hex8 : String) : Nat → (String → Bool)
  | 0 => fs0
  | n + 1 => fun s =>
    (s == get_unique_filepath (fsAfter fs0 dir stem ext hex8 n) dir stem ext hex8) ||
    fsAfter fs0 dir stem ext hex8 n s

/-- Result of the 0-based `j`-th call of the creation chain. -/
def nthCall (fs0 : String → Bool) (dir stem ext hex8 : String) (j : Nat) : String :=
  get_unique_filepath (fsAfter fs0 dir stem ext hex8 j) dir stem ext hex8

theorem chain_behavior (fs0 : String → Bool) (dir stem ext hex8 : String) (N : Nat)
    (hN : N ≤ 1000) (h0 : ∀ i, i < N → fs0 (cand dir stem ext i) = false) :
    ∀ j, j ≤ N →
      (∀ i, i < N →
        fsAfter fs0 dir stem ext hex8 j (cand dir stem ext i) = decide (i < j)) ∧
      (j < N → nthCall fs0 dir stem ext hex8 j = cand dir stem ext j) := by
  intro j
  induction j with
  | zero =>
    intro hj
    refine ⟨fun i hi => by simpa [fsAfter] using h0 i hi, fun hjN => ?_⟩
    have hfind := guLoop_finds fs0 dir stem ext hex8 0 0 (by omega)
      (fun i _ h2 => absurd h2 (by omega)) (by simpa using h0 0 hjN)
    simpa [nthCall, get_unique_filepath, fsAfter] using hfind
  | succ j ih =>
    intro hj
    have hjN : j < N := by omega
    obtain ⟨hfs, hcall⟩ := ih (by omega)
    have hcallj := hcall hjN
    have hfs1 : ∀ i, i < N →
        fsAfter fs0 dir stem ext hex8 (j + 1) (cand dir stem ext i) = decide (i < j + 1) := by
      intro i hi
      simp only [fsAfter]
      rw [show get_unique_filepath (fsAfter fs0 dir stem ext hex8 j) dir stem ext hex8 =
        cand dir stem ext j from hcallj]
      rw [hfs i hi]
      by_cases hij : i = j
      · subst hij
        simp
      · have hne : (cand dir stem ext i == cand dir stem ext j) = false := by
          simp only [beq_eq_false_iff_ne, ne_eq]
          intro hc
          exact hij (cand_inj dir stem ext hc)
        rw [hne]
        simp only [Bool.false_or]
        rw [decide_eq_decide]
        omega
    refine ⟨hfs1, fun hj1N => ?_⟩
    have hfind := guLoop_finds (fsAfter fs0 dir stem ext hex8 (j + 1)) dir stem ext hex8
      (j + 1) 0 (by omega)
      (fun i _ h2 => by
        rw [hfs1 i (by omega)]
        rw [decide_eq_true_eq]
        omega)
      (by
        rw [show (0 + (j + 1)) = j + 1 from by omega, hfs1 (j + 1) hj1N]
        simp)
    simpa [nthCall, get_unique_filepath] using hfind

/-- C6 (amended): for every `N ≤ 1000`, calling the resolver `N` times with
the same directory, stem and extension, creating each returned file before
the next call and deleting nothing, returns the pairwise-distinct paths
`stem.ext, stem_1.ext, …, stem_(N-1).ext` in that order (for `N > 1000`
the collision bound of the source takes over and the 1001st call returns
the random fallback instead of `stem_1000.ext`). -/
theorem c6_repeated_calls (fs0 : String → Bool) (dir stem ext hex8 : String) (N : Nat)
    (hN : N ≤ 1000) (h0 : ∀ i, i < N → fs0 (cand dir stem ext i) = false) :
    (∀ j, j < N → nthCall fs0 dir stem ext hex8 j = cand dir stem ext j) ∧
    (∀ i j, i < N → j < N → i ≠ j → cand dir stem ext i ≠ cand dir stem ext j) := by
  constructor
  · intro j hj
    exact ((chain_behavior fs0 dir stem ext hex8 N hN h0) j (Nat.le_of_lt hj)).2 hj
  · intro i j _ _ hne hc
    exact hne (cand_inj dir stem ext hc)

/-- Counterexample to C6 as stated: over an initially empty directory the
1001st call (index 1000) returns the random fallback path, not
`stem_1000.ext`, so the unbounded form of the claim fails at `N = 1001`. -/
theorem c6_counterexample :
    ¬ (∀ j, j < 1001 →
        nthCall (fun _ => false) "d" "s" ".mp3" "deadbeef" j = cand "d" "s" ".mp3" j) := by
  intro h
  have h1000 := h 1000 (by omega)
  have hchain := (chain_behavior (fun _ => false) "d" "s" ".mp3" "deadbeef" 1000 (by omega)
    (fun i _ => rfl)) 1000 (Nat.le_refl 1000)
  have hfs := hchain.1
  have hfall := guLoop_fallback (fsAfter (fun _ => false) "d" "s" ".mp3" "deadbeef" 1000)
    "d" "s" ".mp3" "deadbeef" 999 0 (by omega)
    (fun i hi => by
      rw [hfs i (by omega)]
      rw [decide_eq_true_eq]
      omega)
  have hcall : nthCall (fun _ => false) "d" "s" ".mp3" "deadbeef" 1000 =
      fallbackPath "d" "s" ".mp3" "deadbeef" := by
    simpa [nthCall, get_unique_filepath] using hfall
  rw [hcall] at h1000
  exact absurd h1000 (by decide)

/-- Witness for C6 at a concrete two-call chain over an empty directory. -/
theorem c6_witness :
    nthCall (fun _ => false) "d" "s" ".mp3" "ab" 0 = cand "d" "s" ".mp3" 0 ∧
    nthCall (fun _ => false) "d" "s" ".mp3" "ab" 1 = cand "d" "s" ".mp3" 1 ∧
    cand "d" "s" ".mp3" 0 ≠ cand "d" "s" ".mp3" 1 := by
  have h := c6_repeated_calls (fun _ => false) "d" "s" ".mp3" "ab" 2 (by omega)
    (fun i _ => rfl)
  exact ⟨h.1 0 (by omega), h.1 1 (by omega), h.2 0 1 (by omega) (by omega) (by omega)⟩

/-! ## Lemmas about the sanitizer pipeline -/

theorem dropWhile_head_false (p : Char → Bool) :
    ∀ (l : List Char) (c : Char) (r : List Char), l.dropWhile p = c :: r → p c = false := by
  intro l
  induction l with
  | nil => intro c r h; exact absurd h (by simp)
  | cons x xs ih =>
    intro c r h
    by_cases hx : p x
    · rw [List.dropWhile_cons_of_pos hx] at h
      exact ih c r h
    · rw [List.dropWhile_cons_of_neg hx] at h
      rcases List.cons.inj h with ⟨rfl, _⟩
      exact Bool.not_eq_true _ ▸ (by simpa using hx)

theorem dropWhile_append_last (p : Char → Bool) (h : Char) (hh : p h = false) :
    ∀ (a : List Char), (a ++ [h]).dropWhile p ≠ [] := by
  intro a
  induction a with
  | nil => simp [List.dropWhile, hh]
  | cons x xs ih =>
    by_cases hx : p x
    · simpa [List.dropWhile_cons_of_pos hx] using ih
    · simp [List.dropWhile_cons_of_neg hx]

theorem dropWhile_append_of_mem (q : Char → Bool) (b : List Char) :
    ∀ (a : List Char), (∃ x ∈ a, q x = false) →
      (a ++ b).dropWhile q = a.dropWhile q ++ b := by
  intro a
  induction a with
  | nil => intro h; simp at h
  | cons x xs ih =>
    intro h
    by_cases hx : q x
    · obtain ⟨y, hy, hqy⟩ := h
      rcases List.mem_cons.mp hy with rfl | hy2
      · rw [hx] at hqy; exact absurd hqy (by simp)
      · simp only [List.cons_append, List.dropWhile_cons_of_pos hx]
        exact ih ⟨y, hy2, hqy⟩
    · simp [List.dropWhile_cons_of_neg hx]

theorem dropWhile_ne_nil_of_mem (q : Char → Bool) :
    ∀ (a : List Char), (∃ x ∈ a, q x = false) → a.dropWhile q ≠ [] := by
  intro a
  induction a with
  | nil => intro h; simp at h
  | cons x xs ih =>
    intro h
    by_cases hx : q x
    · obtain ⟨y, hy, hqy⟩ := h
      rcases List.mem_cons.mp hy with rfl | hy2
      · rw [hx] at hqy; exact absurd hqy (by simp)
      · simpa [List.dropWhile_cons_of_pos hx] using ih ⟨y, hy2, hqy⟩
    · simp [List.dropWhile_cons_of_neg hx]

theorem trimBoth_subset (p : Char → Bool) (l : List Char) :
    ∀ c ∈ trimBoth p l, c ∈ l := by
  intro c hc
  unfold trimBoth at hc
  rw [List.mem_reverse] at hc
  have h1 := List.dropWhile_subset p hc
  rw [List.mem_reverse] at h1
  exact List.dropWhile_subset p h1

theorem trimBoth_length_le (p : Char → Bool) (l : List Char) :
    (trimBoth p l).length ≤ l.length := by
  unfold trimBoth
  rw [List.length_reverse]
  calc ((l.dropWhile p).reverse.dropWhile p).length
      ≤ (l.dropWhile p).reverse.length := (List.dropWhile_sublist p).length_le
    _ = (l.dropWhile p).length := List.length_reverse _
    _ ≤ l.length := (List.dropWhile_sublist p).length_le

theorem trimBoth_head_false (p : Char → Bool) (l : List Char) (c : Char) (r : List Char)
    (h : trimBoth p l = c :: r) : p c = false := by
  unfold trimBoth at h
  have hsuf : (l.dropWhile p).reverse.dropWhile p <:+ (l.dropWhile p).reverse :=
    List.dropWhile_suffix p
  have hpre : ((l.dropWhile p).reverse.dropWhile p).reverse <+: l.dropWhile p := by
    have := List.reverse_prefix.mpr hsuf
    simpa using this
  obtain ⟨tail, htail⟩ := hpre
  rw [h] at htail
  exact dropWhile_head_false p l c (r ++ tail) (by simpa using htail.symm)

theorem trimBoth_ne_nil (p : Char → Bool) (c : Char) (r : List Char) (hc : p c = false) :
    trimBoth p (c :: r) ≠ [] := by
  unfold trimBoth
  rw [List.dropWhile_cons_of_neg (by simp [hc])]
  intro hcontra
  have : (c :: r).reverse.dropWhile p = [] := by
    have := congrArg List.reverse hcontra
    simpa using this
  have hrev : (c :: r).reverse = r.reverse ++ [c] := by simp
  rw [hrev] at this
  exact dropWhile_append_last p c hc r.reverse this

theorem collapseRunsAux_subset (l : List Char) :
    ∀ (b : Bool), ∀ c ∈ collapseRunsAux b l, c ∈ l := by
  induction l with
  | nil => intro b c hc; simp [collapseRunsAux] at hc
  | cons x xs ih =>
    intro b c hc
    by_cases hx : x = '_'
    · subst hx
      simp only [collapseRunsAux, if_true] at hc
      cases b with
      | true => exact List.mem_cons_of_mem _ (ih true c (by simpa using hc))
      | false =>
        rcases List.mem_cons.mp (by simpa using hc) with rfl | h2
        · exact List.mem_cons_self _ _
        · exact List.mem_cons_of_mem _ (ih true c h2)
    · simp only [collapseRunsAux, hx, if_false] at hc
      rcases List.mem_cons.mp hc with rfl | h2
      · exact List.mem_cons_self _ _
      · exact List.mem_cons_of_mem _ (ih false c h2)

theorem collapseRuns_cons (c : Char) (r : List Char) :
    ∃ r2, collapseRuns (c :: r) = c :: r2 := by
  unfold collapseRuns collapseRunsAux
  by_cases hc : c = '_'
  · subst hc; simp
  · simp [hc]

theorem beforeLastUnderscore_subset (l : List Char) :
    ∀ c ∈ beforeLastUnderscore l, c ∈ l := by
  intro c hc
  unfold beforeLastUnderscore at hc
  split at hc
  · rw [List.mem_reverse] at hc
    have h1 := List.mem_of_mem_drop hc
    have h2 := List.dropWhile_subset _ h1
    rwa [List.mem_reverse] at h2
  · exact hc

theorem beforeLastUnderscore_length_le (l : List Char) :
    (beforeLastUnderscore l).length ≤ l.length := by
  unfold beforeLastUnderscore
  split
  · rw [List.length_reverse]
    calc ((l.reverse.dropWhile (fun c => c ≠ '_')).drop 1).length
        ≤ (l.reverse.dropWhile (fun c => c ≠ '_')).length := by
          rw [List.length_drop]; omega
      _ ≤ l.reverse.length := (List.dropWhile_sublist _).length_le
      _ = l.length := List.length_reverse l
  · exact Nat.le_refl _

theorem beforeLastUnderscore_cons (c : Char) (r : List Char)
    (hr : '_' ∈ r) : ∃ r2, beforeLastUnderscore (c :: r) = c :: r2 := by
  have hcontains : (c :: r).contains '_' = true := by
    simp [List.elem_iff]
    exact Or.inr hr
  unfold beforeLastUnderscore
  rw [hcontains]
  simp only [if_true]
  have hrev : (c :: r).reverse = r.reverse ++ [c] := by simp
  rw [hrev]
  have hmem : ∃ x ∈ r.reverse, (decide (x ≠ '_')) = false := by
    exact ⟨'_', by simpa using hr, by simp⟩
  rw [dropWhile_append_of_mem _ [c] r.reverse hmem]
  set D := r.reverse.dropWhile (fun x => decide (x ≠ '_')) with hD
  have hDne : D ≠ [] := dropWhile_ne_nil_of_mem _ r.reverse hmem
  obtain ⟨d, ds, hds⟩ : ∃ d ds, D = d :: ds := by
    cases hq : D with
    | nil => exact absurd hq hDne
    | cons d ds => exact ⟨d, ds, rfl⟩
  rw [hds]
  refine ⟨ds.reverse, ?_⟩
  simp

theorem listPySlice_subset (l : List Char) (a b : ℤ) :
    ∀ c ∈ listPySlice l a b, c ∈ l := by
  intro c hc
  unfold listPySlice at hc
  exact List.mem_of_mem_take (List.mem_of_mem_drop hc)

theorem listPySlice_zero (l : List Char) (m : ℤ) (hm : 0 ≤ m) :
    listPySlice l 0 m = l.take m.toNat := by
  unfold listPySlice
  have h0 : ¬ ((0 : ℤ) < 0) := by omega
  have hmn : ¬ (m < 0) := by omega
  simp only [h0, if_false, hmn]
  have hlo : (min (0 : ℤ) (l.length : ℤ)).toNat = 0 := by
    have : (0 : ℤ) ≤ (l.length : ℤ) := by positivity
    omega
  rw [hlo, List.drop_zero]
  rcases le_total m (l.length : ℤ) with h | h
  · have h1 : (min m (l.length : ℤ)).toNat = m.toNat := by omega
    rw [h1]
  · have h1 : (min m (l.length : ℤ)).toNat = l.length := by omega
    rw [h1, List.take_length, List.take_of_length_le (by omega)]

theorem isWordOrDot_toNat_le (c : Char) (h : isWordOrDot c = true) : c.toNat ≤ 122 := by
  have hval : c.toNat = c.val.toNat := rfl
  by_cases hu : c = '_'
  · subst hu; decide
  · by_cases hd : c = '.'
    · subst hd; decide
    · have halnum : c.isAlphanum = true := by
        simpa [isWordOrDot, hu, hd] using h
      simp only [Char.isAlphanum, Char.isAlpha, Char.isUpper, Char.isLower, Char.isDigit,
        Bool.or_eq_true, Bool.and_eq_true, decide_eq_true_eq] at halnum
      rcases halnum with (⟨_, h2⟩ | ⟨_, h2⟩) | ⟨_, h2⟩
      · have := @UInt32.toNat_le_of_le c.val 90 (by decide) h2
        omega
      · have := @UInt32.toNat_le_of_le c.val 122 (by decide) h2
        omega
      · have := @UInt32.toNat_le_of_le c.val 57 (by decide) h2
        omega

theorem toLower_wordOrDot_good (c : Char) (h : isWordOrDot c = true) :
    Char.toLower c ≠ ' ' ∧ isProblemChar (Char.toLower c) = false ∧
    (Char.toLower c).isUpper = false := by
  have h122 := isWordOrDot_toNat_le c h
  have key : ∀ n : Fin 123, isWordOrDot (Char.ofNat n.val) = true →
      Char.toLower (Char.ofNat n.val) ≠ ' ' ∧
      isProblemChar (Char.toLower (Char.ofNat n.val)) = false ∧
      (Char.toLower (Char.ofNat n.val)).isUpper = false := by decide
  have hc : Char.ofNat c.toNat = c := Char.ofNat_toNat c
  have := key ⟨c.toNat, by omega⟩ (by rw [hc]; exact h)
  rwa [hc] at this

theorem mem_cleanedChars_good (l : List Char) (c : Char) (hc : c ∈ cleanedChars l) :
    c ≠ ' ' ∧ isProblemChar c = false ∧ c.isUpper = false := by
  unfold cleanedChars at hc
  obtain ⟨d, hd, rfl⟩ := List.mem_map.mp hc
  exact toLower_wordOrDot_good d (List.of_mem_filter hd)

theorem baseStem_ne_nil (l : List Char) : baseStem l ≠ [] := by
  unfold baseStem
  by_cases h : (collapseRuns (trimBoth isStripSet (cleanedChars l))).isEmpty
  · simp [h]
  · simp only [h, if_false, Bool.false_eq_true]
    simpa [List.isEmpty_iff] using h

theorem baseStem_head_false (l : List Char) (c : Char) (r : List Char)
    (h : baseStem l = c :: r) : isStripSet c = false := by
  unfold baseStem at h
  split at h
  · have hcg : c = 'g' := by
      have hinj := List.cons.inj h.symm
      exact hinj.1
    subst hcg
    decide
  · next hne =>
    set l4 := trimBoth isStripSet (cleanedChars l) with hl4
    obtain ⟨c0, r0, hc0⟩ : ∃ c0 r0, l4 = c0 :: r0 := by
      cases hq : l4 with
      | nil => rw [hq] at h; simp [collapseRuns, collapseRunsAux] at h
      | cons c0 r0 => exact ⟨c0, r0, rfl⟩
    obtain ⟨r2, hr2⟩ := collapseRuns_cons c0 r0
    rw [hc0, hr2] at h
    obtain ⟨hceq, _⟩ := List.cons.inj h
    rw [← hceq]
    exact trimBoth_head_false isStripSet (cleanedChars l) c0 r0 hc0

theorem baseStem_good (l : List Char) (c : Char) (hc : c ∈ baseStem l) :
    c ≠ ' ' ∧ isProblemChar c = false ∧ c.isUpper = false := by
  unfold baseStem at hc
  split at hc
  · revert hc
    revert c
    decide
  · have h1 := collapseRunsAux_subset _ false c hc
    exact mem_cleanedChars_good l c (trimBoth_subset isStripSet _ c h1)

theorem truncStem_subset (l6 : List Char) (m : ℤ) :
    ∀ c ∈ truncStem l6 m, c ∈ l6 := by
  intro c hc
  unfold truncStem at hc
  split at hc
  · have h1 := trimBoth_subset isStripSet _ c hc
    split at h1
    · exact listPySlice_subset l6 0 m c (beforeLastUnderscore_subset _ c h1)
    · exact listPySlice_subset l6 0 m c h1
  · exact hc

theorem truncStem_spec (l6 : List Char) (m : ℤ) (hm : 1 ≤ m)
    (hhead : ∀ c r, l6 = c :: r → isStripSet c = false) (h6 : l6 ≠ []) :
    truncStem l6 m ≠ [] ∧ ((truncStem l6 m).length : ℤ) ≤ m := by
  unfold truncStem
  by_cases hgt : (l6.length : ℤ) > m
  · simp only [hgt, if_true]
    obtain ⟨c, r, rfl⟩ : ∃ c r, l6 = c :: r := by
      cases hq : l6 with
      | nil => exact absurd hq h6
      | cons c r => exact ⟨c, r, rfl⟩
    have hc := hhead c r rfl
    have hslice : listPySlice (c :: r) 0 m = (c :: r).take m.toNat :=
      listPySlice_zero (c :: r) m (by omega)
    have hmt : m.toNat = (m.toNat - 1) + 1 := by omega
    have htake : (c :: r).take m.toNat = c :: r.take (m.toNat - 1) := by
      rw [hmt]
      rfl
    have htlen : ((c :: r).take m.toNat).length = m.toNat := by
      rw [List.length_take]
      simp only [List.length_cons] at hgt ⊢
      omega
    set t := listPySlice (c :: r) 0 m with ht
    set t2 := if (listPySlice t (m - 10) m).contains '_' then beforeLastUnderscore t else t
      with ht2
    have ht2head : ∃ r2, t2 = c :: r2 := by
      rw [ht2]
      split
      · next hw =>
        have hu : '_' ∈ t := listPySlice_subset t (m - 10) m '_' (List.elem_iff.mp hw)
        rw [hslice, htake] at hu
        have hcu : ¬ c = '_' := by
          intro hcontra
          rw [hcontra] at hc
          simp [isStripSet] at hc
        have hur : '_' ∈ r.take (m.toNat - 1) := by
          rcases List.mem_cons.mp hu with h | h
          · exact absurd h.symm hcu
          · exact h
        rw [hslice, htake]
        exact beforeLastUnderscore_cons c (r.take (m.toNat - 1)) hur
      · rw [hslice, htake]
        exact ⟨r.take (m.toNat - 1), rfl⟩
    obtain ⟨r2, hr2⟩ := ht2head
    have ht2len : t2.length ≤ m.toNat := by
      rw [ht2]
      split
      · calc (beforeLastUnderscore t).length ≤ t.length := beforeLastUnderscore_length_le t
          _ = m.toNat := by rw [hslice] at ht ⊢; rw [htlen]
      · rw [hslice] at ht ⊢
        rw [htlen]
    constructor
    · rw [hr2]
      exact trimBoth_ne_nil isStripSet c r2 hc
    · have := trimBoth_length_le isStripSet t2
      have hcast : ((trimBoth isStripSet t2).length : ℤ) ≤ (m.toNat : ℤ) := by
        omega
      omega
  · simp only [hgt, if_false]
    constructor
    · exact h6
    · omega

/-! ## Claim C4: global guarantees of the sanitizer output -/

/-- C4 (amended): for every input and maxLength the output of
`sanitize_filename` contains no space, none of the characters
`\\ / : * ? " < > |` and no uppercase character; the length bound
`≤ maxLength` holds for every `maxLength ≥ 1` on non-empty inputs and for
every `maxLength ≥ 11` unconditionally, but not for every `maxLength`
(the fallback constants are longer than very small bounds). -/
theorem c4_sanitize_output (s : String) (m : ℤ) :
    (∀ c ∈ (sanitize_filename s m).data,
      c ≠ ' ' ∧ isProblemChar c = false ∧ c.isUpper = false) ∧
    (1 ≤ m → s ≠ "" → ((sanitize_filename s m).length : ℤ) ≤ m) ∧
    (11 ≤ m → ((sanitize_filename s m).length : ℤ) ≤ m) := by
  by_cases hs : s.data.isEmpty
  · have hsempty : s = "" := by
      cases s with
      | mk d =>
        cases d with
        | nil => rfl
        | cons a l => simp at hs
    constructor
    · intro c hc
      rw [hsempty] at hc
      simp only [sanitize_filename, List.isEmpty_nil, if_true] at hc
      revert hc
      revert c
      decide
    constructor
    · intro _ hne
      exact absurd hsempty hne
    · intro hm
      rw [hsempty]
      have hlen : ("unnamed_sfx".length : ℤ) = 11 := by decide
      simp only [sanitize_filename, List.isEmpty_nil, if_true]
      omega
  · have h6 := baseStem_ne_nil s.data
    have hhead := baseStem_head_false s.data
    have hmain : ∀ hm : 1 ≤ m, ((sanitize_filename s m).length : ℤ) ≤ m := by
      intro hm
      obtain ⟨h7ne, h7len⟩ := truncStem_spec (baseStem s.data) m hm hhead h6
      simp only [sanitize_filename, hs, Bool.false_eq_true, if_false]
      rw [if_neg (by simpa [List.isEmpty_iff] using h7ne)]
      exact h7len
    refine ⟨?_, fun hm _ => hmain hm, fun hm => hmain (by omega)⟩
    intro c hc
    simp only [sanitize_filename, hs, Bool.false_eq_true, if_false] at hc
    by_cases h7 : (truncStem (baseStem s.data) m).isEmpty
    · rw [if_pos h7] at hc
      revert hc
      revert c
      decide
    · rw [if_neg h7] at hc
      exact baseStem_good s.data c (truncStem_subset (baseStem s.data) m c hc)

/-- Counterexample to C4 as stated: the length bound fails at
`maxLength = 0` for input `a` (the truncation fallback constant has 23
characters) and at `maxLength = 1` for the empty input (the constant
`unnamed_sfx` has 11 characters). -/
theorem c4_counterexample :
    ¬ (((sanitize_filename "a" 0).length : ℤ) ≤ 0) ∧
    ¬ (((sanitize_filename "" 1).length : ℤ) ≤ 1) := by
  constructor
  · decide
  · decide

/-- Witness for C4 at a concrete input and bound. -/
theorem c4_witness :
    ((sanitize_filename "Hello World!" 5).length : ℤ) ≤ 5 ∧
    (∀ c ∈ (sanitize_filename "Hello World!" 5).data,
      c ≠ ' ' ∧ isProblemChar c = false ∧ c.isUpper = false) :=
  ⟨(c4_sanitize_output "Hello World!" 5).2.1 (by decide) (by decide),
   (c4_sanitize_output "Hello World!" 5).1⟩

/-! ## Claim C5: the truncation heuristic -/

theorem listPySlice_window (t : List Char) (m : ℤ) (hm : 10 ≤ m)
    (hlen : t.length = m.toNat) : listPySlice t (m - 10) m = lastN 10 t := by
  have hm10 : ¬ (m - 10 < 0) := by omega
  have hmn : ¬ (m < 0) := by omega
  simp only [listPySlice, lastN, hm10, hmn, if_false]
  have h1 : ((m - 10) ⊓ (t.length : ℤ)).toNat = t.length - 10 := by omega
  have h2 : (m ⊓ (t.length : ℤ)).toNat = t.length := by omega
  rw [h1, h2, List.take_length]

theorem truncStem_eq_claim (l6 : List Char) (m : ℤ) (hm : 10 ≤ m) :
    truncStem l6 m = truncStemClaim l6 m := by
  unfold truncStem truncStemClaim
  by_cases hgt : (l6.length : ℤ) > m
  · simp only [hgt, if_true]
    have ht : listPySlice l6 0 m = l6.take m.toNat := listPySlice_zero l6 m (by omega)
    have htlen : (listPySlice l6 0 m).length = m.toNat := by
      rw [ht, List.length_take]
      omega
    rw [listPySlice_window (listPySlice l6 0 m) m hm htlen]
  · simp only [hgt, if_false]

/-- C5 (amended): for every `maxLength ≥ 10` the truncation behaves exactly
as the claim describes (truncate to `maxLength`, cut back to the last
underscore when one occurs within the last 10 characters of the truncated
string, re-trim `_.-`, and fall back to `generated_sfx_truncated` when
empty); for `6 ≤ maxLength ≤ 9` the code inspects the Python slice
`[maxLength-10 : maxLength]`, a shorter window than the last 10
characters. -/
theorem c5_truncation_heuristic (s : String) (m : ℤ) (hm : 10 ≤ m) :
    sanitize_filename s m = sanitizeClaimC5 s m := by
  unfold sanitize_filename sanitizeClaimC5
  rw [truncStem_eq_claim (baseStem s.data) m hm]

/-- Counterexample to C5 as stated: at `maxLength = 8` the truncated form
of `ab_cdefgh` is `ab_cdefg`, whose last 10 characters contain an
underscore, so the claim cuts back to `ab`; the code inspects only the
slice `[-2:8]`, finds no underscore, and keeps `ab_cdefg`. -/
theorem c5_counterexample :
    sanitize_filename "ab_cdefgh" 8 = "ab_cdefg" ∧
    sanitizeClaimC5 "ab_cdefgh" 8 = "ab" ∧
    ("ab_cdefg" : String) ≠ "ab" := by
  refine ⟨by decide, by decide, by decide⟩

/-- Witness for C5 at a concrete input whose sanitized form is longer than
the bound. -/
theorem c5_witness :
    sanitize_filename "abcde_fghij_klmno" 15 = sanitizeClaimC5 "abcde_fghij_klmno" 15 :=
  c5_truncation_heuristic "abcde_fghij_klmno" 15 (by decide)

end SfxBatch
